import Mathlib

/-!
Verification of the extraction-and-matching engine of the BOM analysis
backend (shallow embedding of `backend/agents/extraction_agent.py` and
`backend/database/item_matcher.py`).

Modelling conventions:
- Python `str` is modelled as Lean `String` (or `List Char` where the code
  repeatedly splits and joins on separators); Python `len` on a string is
  the character count, matching `String.length` / `List.length`.
- Python `float` is modelled as `ℚ`.  All float constants of the source are
  exactly representable (`0.95`, `0.8`, ...) and every arithmetic step of
  the source on these scores is written as a single exact `mkRat`
  construction, so no rounding questions arise for the properties proved.
- Fallible Python code (code that can raise) is embedded in `Except String`;
  a `try/except` of the source corresponds to pattern matching on the
  `Except` value.  Code that cannot raise is embedded as a total function.
- `dict` payloads whose keys are dynamic are modelled as association lists
  (`List (String × JValue)`); typed records of the source (pydantic models,
  knowledge-store candidate records per the collaborator contract) are
  modelled as Lean structures.
-/

/-! ## Python string primitives -/

/-- The whitespace characters stripped by Python `str.strip()`
(space, tab, newline, carriage return, vertical tab, form feed;
the model is restricted to ASCII). -/
def isPyWs (c : Char) : Bool :=
  c = ' ' || c = '\t' || c = '\n' || c = '\r' || c = '\x0b' || c = '\x0c'

/-- Python `str.strip()` on a character list. -/
def pyStripL (s : List Char) : List Char :=
  ((s.dropWhile isPyWs).reverse.dropWhile isPyWs).reverse

/-- Python `str.strip()`. -/
def pyStrip (s : String) : String :=
  String.mk (pyStripL s.toList)

/-- ASCII lower-casing of one character. -/
def pyCharLower (c : Char) : Char :=
  if 'A' ≤ c && c ≤ 'Z' then Char.ofNat (c.toNat + 32) else c

/-- Python `str.lower()` (ASCII model). -/
def pyLower (s : String) : String :=
  String.mk (s.toList.map pyCharLower)

/-- Worker for `pyWords`: `cur` is the current word, reversed. -/
def pyWordsGo (cur : List Char) : List Char → List String
  | [] => if cur.isEmpty then [] else [String.mk cur.reverse]
  | c :: rest =>
    if isPyWs c then
      if cur.isEmpty then pyWordsGo [] rest
      else String.mk cur.reverse :: pyWordsGo [] rest
    else pyWordsGo (c :: cur) rest

/-- Python `str.split()` with no argument: split on runs of whitespace,
discarding empty fields. -/
def pyWords (s : String) : List String :=
  pyWordsGo [] s.toList

/-- Python `a in b` on strings: `needle` occurs as a contiguous substring. -/
def containsSub (haystack needle : List Char) : Bool :=
  match haystack with
  | [] => needle.isEmpty
  | _ :: rest => needle.isPrefixOf haystack || containsSub rest needle

/-! ## Chunker (`_split_into_extraction_chunks` / `_split_large_chunk`)

The chunker is modelled on `List Char`.  `joinSep` is Python
`sep.join(list)`; `splitOnSep` is Python `text.split(sep)` (leftmost,
non-overlapping occurrences of a non-empty separator). -/

/-- Python `sep.join(pieces)`. -/
def joinSep (sep : List Char) : List (List Char) → List Char
  | [] => []
  | [x] => x
  | x :: y :: rest => x ++ sep ++ joinSep sep (y :: rest)

/-- Worker for `splitOnSep`: scans `s` left to right, accumulating the
current field in reverse in `acc`; on each occurrence of `sep` the field is
emitted and the separator consumed.  `fuel` makes the recursion structural
(a non-empty separator consumes at least one character per step, so fuel
equal to the length of `s` is always sufficient and the fuel-exhaustion
arm is unreachable from `splitOnSep`). -/
def splitOnAux (sep : List Char) : Nat → List Char → List Char → List (List Char)
  | _, [], acc => [acc.reverse]
  | fuel + 1, c :: rest, acc =>
    if sep.isPrefixOf (c :: rest) then
      acc.reverse :: splitOnAux sep fuel (List.drop sep.length (c :: rest)) []
    else
      splitOnAux sep fuel rest (c :: acc)
  | 0, s, acc => [acc.reverse ++ s]

/-- Python `text.split(sep)` for a non-empty separator. -/
def splitOnSep (sep : List Char) (s : List Char) : List (List Char) :=
  splitOnAux sep s.length s []

/-- The greedy packing loop shared by `_split_into_extraction_chunks`
(section level) and `_split_large_chunk` (line level): sections are packed
into the current group while the running sum of their lengths (the source
tracks the sum of the pieces only, not the separators that `join` later
inserts) stays within `maxSize`; on overflow the current non-empty group is
flushed.  The source builds the joined string of every group directly; the
model returns the groups and the callers join them, which makes the
reassembly structure explicit. -/
def packGo (maxSize : Nat) : List (List Char) → List (List Char) → Nat → List (List (List Char))
  | [], cur, _ => if cur.isEmpty then [] else [cur]
  | s :: rest, cur, curLen =>
    if curLen + s.length > maxSize && !cur.isEmpty then
      cur :: packGo maxSize rest [s] s.length
    else
      packGo maxSize rest (cur ++ [s]) (curLen + s.length)

/-- The newline separator. -/
def nlSep : List Char := ['\n']

/-- The blank-line (paragraph) separator. -/
def nlnlSep : List Char := ['\n', '\n']

/-- `_split_large_chunk`: split an over-sized chunk on single newlines and
greedily repack the lines. -/
def split_large_chunk (chunk : List Char) (max_size : Nat) : List (List Char) :=
  if chunk.length ≤ max_size then [chunk]
  else
    (packGo max_size (splitOnSep nlSep chunk) [] 0).map (joinSep nlSep)

/-- `_split_into_extraction_chunks`: return the text whole when it fits;
otherwise split on blank lines, greedily pack the paragraphs, and split any
still over-sized chunk further with `_split_large_chunk`. -/
def split_into_extraction_chunks (text : List Char) (max_chunk_size : Nat) : List (List Char) :=
  if text.length ≤ max_chunk_size then [text]
  else
    let chunks := (packGo max_chunk_size (splitOnSep nlnlSep text) [] 0).map (joinSep nlnlSep)
    (chunks.map (fun c =>
      if c.length > max_chunk_size then split_large_chunk c max_chunk_size else [c])).flatten

/-! ## JSON values and `json.loads`

`JValue` models the values produced by Python `json.loads` (the
nonstandard `NaN` / `Infinity` literals are outside the model; no code
path of this repository feeds them to the decoder).  The parser is a
fuel-indexed recursive-descent parser over the character list; `fuel`
only bounds nesting depth and `jsonFuel` below is always sufficient. -/

inductive JValue where
  | null
  | jbool (b : Bool)
  | num (q : ℚ)
  | str (s : String)
  | arr (xs : List JValue)
  | obj (fields : List (String × JValue))
  deriving Repr

/-- JSON insignificant whitespace (RFC 8259: space, tab, newline, return). -/
def isJsonWs (c : Char) : Bool :=
  c = ' ' || c = '\t' || c = '\n' || c = '\r'

/-- Skip insignificant whitespace. -/
def jskipWs (s : List Char) : List Char :=
  s.dropWhile isJsonWs

/-- Value of one hexadecimal digit (code-point arithmetic). -/
def hexVal (c : Char) : Option Nat :=
  let n := c.toNat
  if 48 ≤ n && n ≤ 57 then some (n - 48)
  else if 97 ≤ n && n ≤ 102 then some (n - 87)
  else if 65 ≤ n && n ≤ 70 then some (n - 55)
  else none

/-- Parse exactly four hex digits. -/
def parseHex4 : List Char → Option (Nat × List Char)
  | a :: b :: c :: d :: rest =>
    match hexVal a, hexVal b, hexVal c, hexVal d with
    | some x, some y, some z, some w => some (x * 4096 + y * 256 + z * 16 + w, rest)
    | _, _, _, _ => none
  | _ => none

/-- Parse the body of a JSON string (the opening quote already consumed);
`acc` holds the decoded characters in reverse. -/
def jstrGo : Nat → List Char → List Char → Option (String × List Char)
  | 0, _, _ => none
  | _ + 1, _, [] => none
  | fuel + 1, acc, c :: rest =>
    if c = '"' then some (String.mk acc.reverse, rest)
    else if c = '\\' then
      match rest with
      | [] => none
      | e :: rest2 =>
        if e = '"' then jstrGo fuel ('"' :: acc) rest2
        else if e = '\\' then jstrGo fuel ('\\' :: acc) rest2
        else if e = '/' then jstrGo fuel ('/' :: acc) rest2
        else if e = 'b' then jstrGo fuel ('\x08' :: acc) rest2
        else if e = 'f' then jstrGo fuel ('\x0c' :: acc) rest2
        else if e = 'n' then jstrGo fuel ('\n' :: acc) rest2
        else if e = 'r' then jstrGo fuel ('\r' :: acc) rest2
        else if e = 't' then jstrGo fuel ('\t' :: acc) rest2
        else if e = 'u' then
          match parseHex4 rest2 with
          | some (n, rest3) => jstrGo fuel (Char.ofNat n :: acc) rest3
          | none => none
        else none
    else if c.toNat < 0x20 then none
    else jstrGo fuel (c :: acc) rest

/-- Parse a run of decimal digits, returning their value and count. -/
def digitsGo : Nat → Nat → List Char → (Nat × Nat × List Char)
  | acc, cnt, c :: rest =>
    if '0' ≤ c && c ≤ '9' then digitsGo (acc * 10 + (c.toNat - '0'.toNat)) (cnt + 1) rest
    else (acc, cnt, c :: rest)
  | acc, cnt, [] => (acc, cnt, [])

/-- Parse a JSON number.  The exact value is assembled with a single
`mkRat`, which equals the mathematical value
`sign * mantissa * 10 ^ (exponent - fracDigits)`. -/
def parseNumber (s : List Char) : Option (ℚ × List Char) :=
  let (neg, s1) := match s with
    | '-' :: r => (true, r)
    | _ => (false, s)
  match s1 with
  | c :: _ =>
    if !('0' ≤ c && c ≤ '9') then none
    else
      let (ipart, s2) :=
        if c = '0' then ((0 : Nat), s1.tail)
        else
          let (v, _, r) := digitsGo 0 0 s1
          (v, r)
      let (man, fracCnt, s3) :=
        match s2 with
        | '.' :: r =>
          match r with
          | d :: _ =>
            if '0' ≤ d && d ≤ '9' then
              let (fv, fc, rr) := digitsGo 0 0 r
              (some (ipart * 10 ^ fc + fv), fc, rr)
            else (none, 0, s2)
          | [] => (none, 0, s2)
        | _ => (some ipart, 0, s2)
      match man with
      | none => none
      | some m =>
        let (ex, s4) :=
          match s3 with
          | e :: r =>
            if e = 'e' || e = 'E' then
              let (esign, r2) := match r with
                | '+' :: rr => (false, rr)
                | '-' :: rr => (true, rr)
                | _ => (false, r)
              match r2 with
              | d :: _ =>
                if '0' ≤ d && d ≤ '9' then
                  let (ev, _, rr) := digitsGo 0 0 r2
                  (some (if esign then -(ev : Int) else (ev : Int)), rr)
                else (none, s3)
              | [] => (none, s3)
            else (some (0 : Int), s3)
          | [] => (some (0 : Int), s3)
        match ex with
        | none => none
        | some e =>
          let p : Int := e - (fracCnt : Int)
          let sm : Int := if neg then -(m : Int) else (m : Int)
          let q : ℚ :=
            if 0 ≤ p then mkRat (sm * (10 : Int) ^ p.toNat) 1
            else mkRat sm ((10 : Nat) ^ (-p).toNat)
          some (q, s4)
  | [] => none

mutual

/-- Recursive-descent JSON value parser; the input is positioned at the
first non-whitespace character of the value. -/
def parseValue : Nat → List Char → Option (JValue × List Char)
  | 0, _ => none
  | _ + 1, [] => none
  | fuel + 1, c :: rest =>
    if c = 't' then
      if ['r','u','e'].isPrefixOf rest then some (.jbool true, rest.drop 3) else none
    else if c = 'f' then
      if ['a','l','s','e'].isPrefixOf rest then some (.jbool false, rest.drop 4) else none
    else if c = 'n' then
      if ['u','l','l'].isPrefixOf rest then some (.null, rest.drop 3) else none
    else if c = '"' then
      match jstrGo (rest.length + 1) [] rest with
      | some (s, r) => some (.str s, r)
      | none => none
    else if c = '[' then
      let r := jskipWs rest
      match r with
      | ']' :: r2 => some (.arr [], r2)
      | _ => parseArrItems fuel [] r
    else if c = '{' then
      let r := jskipWs rest
      match r with
      | '}' :: r2 => some (.obj [], r2)
      | _ => parseObjItems fuel [] r
    else if c = '-' || ('0' ≤ c && c ≤ '9') then
      match parseNumber (c :: rest) with
      | some (q, r) => some (.num q, r)
      | none => none
    else none

/-- Parse the items of a non-empty JSON array, positioned at a value. -/
def parseArrItems : Nat → List JValue → List Char → Option (JValue × List Char)
  | 0, _, _ => none
  | fuel + 1, acc, s =>
    match parseValue fuel s with
    | none => none
    | some (v, r) =>
      match jskipWs r with
      | ',' :: r2 => parseArrItems fuel (v :: acc) (jskipWs r2)
      | ']' :: r2 => some (.arr (v :: acc).reverse, r2)
      | _ => none

/-- Parse the members of a non-empty JSON object, positioned at a key. -/
def parseObjItems : Nat → List (String × JValue) → List Char → Option (JValue × List Char)
  | 0, _, _ => none
  | fuel + 1, acc, s =>
    match s with
    | '"' :: rest =>
      match jstrGo (rest.length + 1) [] rest with
      | none => none
      | some (k, r) =>
        match jskipWs r with
        | ':' :: r2 =>
          match parseValue fuel (jskipWs r2) with
          | none => none
          | some (v, r3) =>
            match jskipWs r3 with
            | ',' :: r4 => parseObjItems fuel ((k, v) :: acc) (jskipWs r4)
            | '}' :: r4 => some (.obj ((k, v) :: acc).reverse, r4)
            | _ => none
        | _ => none
    | _ => none

end

/-- Python `json.loads`: parse the whole payload; trailing non-whitespace
text is an error. -/
def json_loads (s : String) : Option JValue :=
  match parseValue (s.length + 1) (jskipWs s.toList) with
  | some (v, rest) => if (jskipWs rest).isEmpty then some v else none
  | none => none

/-- Python `dict.get` on a parsed JSON object (later duplicate keys win,
as in the `dict` built by `json.loads`). -/
def objGet (fields : List (String × JValue)) (k : String) : Option JValue :=
  (fields.reverse.find? (fun p => p.1 == k)).map (fun p => p.2)

/-- Python truthiness of a decoded JSON value. -/
def truthyJ : JValue → Bool
  | .null => false
  | .jbool b => b
  | .num q => !(q == 0)
  | .str s => !(s == "")
  | .arr xs => !xs.isEmpty
  | .obj fs => !fs.isEmpty

/-! ## Resilient record decoder (`_parse_json_response`) -/

/-- Model of `re.sub(r"^```json", "", s)`: without `re.MULTILINE` the `^`
anchor matches only at position 0, so at most the leading occurrence is
removed. -/
def stripFencePrefix (s : String) : String :=
  if ("```json".toList).isPrefixOf s.toList then String.mk (s.toList.drop 7) else s

/-- Whether `suffix` is a suffix of `s`, on character lists. -/
def endsWithL (suffix s : List Char) : Bool :=
  suffix.reverse.isPrefixOf s.reverse

/-- Drop trailing regex-`\s` whitespace characters (`[ \t\n\r\f\v]`, the
same set as `isPyWs`). -/
def dropTrailingWs (s : List Char) : List Char :=
  (s.reverse.dropWhile isPyWs).reverse

/-- Model of `re.sub(r"\s*```$", "", s)`: without `re.MULTILINE` the `$`
anchor matches only at the end of the string or just before a final
newline, so the pattern matches exactly when the string ends in three
backticks (optionally followed by one final newline), and the leftmost
match also swallows the contiguous whitespace run before the backticks. -/
def stripFenceEnd (s : String) : String :=
  let cs := s.toList
  if endsWithL "```".toList cs then
    String.mk (dropTrailingWs (cs.take (cs.length - 3)))
  else if endsWithL "```\n".toList cs then
    String.mk (dropTrailingWs (cs.take (cs.length - 4)) ++ ['\n'])
  else s

/-- Strategy 2 of `_parse_json_response` scans with
`re.findall(r"$$\s*\{.*?\}\s*(?:,\s*\{.*?\}\s*)*$$", cleaned, re.DOTALL)`.
In this pattern `$$` is two end-of-input anchors (not escaped brackets),
and without `re.MULTILINE` a `$` anchor can match only at the end of the
input or just before a final newline.  Since the pattern then demands a
literal `\x7b` at or after that position, followed later by yet more
literal characters, no string whatsoever can match it: `re.findall`
always returns the empty list.  The model therefore returns `[]` for
every input. -/
def strategy2_array_matches (_ : String) : List String := []

/-- Characters that are not braces (for the strategy-3 object scan). -/
def nonBrace (c : Char) : Bool := !(c = '{' || c = '}')

/-- Match the body of `re` pattern `\{[^{}]*(?:\{[^{}]*\}[^{}]*)*\}` after
the opening brace: runs of non-brace characters, optionally interleaved
with single-level `\x7b...\x7d` groups, closed by the matching outer
brace.  Because `[^{}]` can match neither brace, the regex engine has no
backtracking freedom here and this deterministic scan returns exactly the
regex match (match text, then the remaining input). -/
def matchObjGo : Nat → List Char → List Char → Option (List Char × List Char)
  | 0, _, _ => none
  | fuel + 1, acc, s =>
    let run := s.takeWhile nonBrace
    let rest := s.dropWhile nonBrace
    match rest with
    | '}' :: t => some (('}' :: (run.reverse ++ acc)).reverse, t)
    | '{' :: t =>
      let run2 := t.takeWhile nonBrace
      let rest2 := t.dropWhile nonBrace
      match rest2 with
      | '}' :: t2 => matchObjGo fuel ('}' :: (run2.reverse ++ ('{' :: (run.reverse ++ acc)))) t2
      | _ => none
    | _ => none

/-- `re.findall` for the strategy-3 object pattern: non-overlapping
leftmost matches, scanning left to right. -/
def objectFindAll : Nat → List Char → List (List Char)
  | 0, _ => []
  | _ + 1, [] => []
  | fuel + 1, c :: rest =>
    if c = '{' then
      match matchObjGo (rest.length + 1) ['{'] rest with
      | some (m, t) => m :: objectFindAll fuel t
      | none => objectFindAll fuel rest
    else objectFindAll fuel rest

/-- One pass of `re.sub(",\s*" ++ close, close, s)` for a closing bracket
character: every comma followed by optional whitespace and `close` is
replaced by `close` alone, scanning left to right over non-overlapping
matches. -/
def subCommaClose (close : Char) : Nat → List Char → List Char
  | _, [] => []
  | 0, s => s
  | fuel + 1, c :: rest =>
    if c = ',' then
      match rest.dropWhile isPyWs with
      | d :: t =>
        if d = close then close :: subCommaClose close fuel t
        else c :: subCommaClose close fuel rest
      | [] => c :: subCommaClose close fuel rest
    else c :: subCommaClose close fuel rest

/-- Strategy 4 of `_parse_json_response`: syntactic repair removing
trailing commas before closing braces and then closing brackets. -/
def removeTrailingCommas (s : String) : String :=
  String.mk (subCommaClose ']' s.length (subCommaClose '}' s.length s.toList))

/-- The loop over the strategy-2 regex matches: parse each match, return
the first that yields a non-empty list (always `none`, since the match
list is always empty — see `strategy2_array_matches`). -/
def strategy2_first_array (cleaned : String) : Option (List JValue) :=
  ((strategy2_array_matches cleaned).filterMap (fun m =>
    match json_loads m with
    | some (.arr xs) => if xs.isEmpty then none else some xs
    | _ => none)).head?

/-- Strategy 3 of `_parse_json_response`: regex-extract brace-delimited
object candidates, parse each, and keep the parsed objects whose `name`
member is truthy. -/
def strategy3_objects (cleaned : String) : List JValue :=
  (objectFindAll (cleaned.length + 1) cleaned.toList).filterMap (fun m =>
    match json_loads (String.mk m) with
    | some (.obj fs) =>
      if truthyJ ((objGet fs "name").getD .null) then some (JValue.obj fs) else none
    | _ => none)

/-- Strategy 4 of `_parse_json_response`: re-parse after trailing-comma
repair, accepting only an array (any other outcome yields the final empty
list). -/
def strategy4_repaired_array (cleaned : String) : List JValue :=
  match json_loads (removeTrailingCommas cleaned) with
  | some (.arr xs) => xs
  | _ => []

/-- `_parse_json_response`: recover a list of JSON records from free-form
model output.  Every `json.loads` failure (a `JSONDecodeError`) is caught
by the source, and the enclosing `try/except` swallows anything else, so
the embedding returns `Except.ok` in every branch; the `Except` codomain
records that the operation as a whole can surface no exception.
Strategy 1 returns a parsed array as-is or wraps a parsed object; any
other parse result falls through.  Strategy 2 is the dead regex scan (see
`strategy2_array_matches`).  Strategy 3 keeps regex-extracted objects
whose `name` member is truthy.  Strategy 4 retries a direct parse after
comma repair and only accepts an array. -/
def parse_json_response (response : String) : Except String (List JValue) :=
  let cleaned := pyStrip response
  let cleaned := stripFenceEnd (stripFencePrefix cleaned)
  let cleaned := pyStrip cleaned
  match json_loads cleaned with
  | some (.arr xs) => .ok xs
  | some (.obj fs) => .ok [.obj fs]
  | _ =>
    match strategy2_first_array cleaned with
    | some xs => .ok xs
    | none =>
      let objects := strategy3_objects cleaned
      if !objects.isEmpty then .ok objects
      else .ok (strategy4_repaired_array cleaned)

/-! ## Classification rule engine (`_classify_material`) -/

inductive QAClassificationLabel where
  | CONSUMABLE_WITH_PN_SPEC_QTY
  | CONSUMABLE_WITH_PN_QTY
  | CONSUMABLE_NO_QTY
  | CONSUMABLE_NO_PN
  | CONSUMABLE_OBSOLETE_PN
  | CONSUMABLE_PN_MISMATCH
  | VENDOR_KIT_NO_PN
  | VENDOR_NAME_ONLY
  | PRE_ASSEMBLED_KIT
  | NO_CONSUMABLE_MENTIONED
  | JIGS_TOOLS_IDENTIFIED
  | PARTIAL_INFO_AVAILABLE
  | REQUIRES_MANUAL_REVIEW
  deriving DecidableEq, Repr

/-- The `IntEnum` value (1-13) of a classification label. -/
def QAClassificationLabel.val : QAClassificationLabel → Nat
  | .CONSUMABLE_WITH_PN_SPEC_QTY => 1
  | .CONSUMABLE_WITH_PN_QTY => 2
  | .CONSUMABLE_NO_QTY => 3
  | .CONSUMABLE_NO_PN => 4
  | .CONSUMABLE_OBSOLETE_PN => 5
  | .CONSUMABLE_PN_MISMATCH => 6
  | .VENDOR_KIT_NO_PN => 7
  | .VENDOR_NAME_ONLY => 8
  | .PRE_ASSEMBLED_KIT => 9
  | .NO_CONSUMABLE_MENTIONED => 10
  | .JIGS_TOOLS_IDENTIFIED => 11
  | .PARTIAL_INFO_AVAILABLE => 12
  | .REQUIRES_MANUAL_REVIEW => 13

inductive ConfidenceLevel where
  | high
  | medium
  | low
  deriving DecidableEq, Repr

/-- The string value of a confidence level. -/
def ConfidenceLevel.value : ConfidenceLevel → String
  | .high => "high"
  | .medium => "medium"
  | .low => "low"

inductive ActionPathRAG where
  | green
  | amber
  | red
  deriving DecidableEq, Repr

/-- The string value of an action path. -/
def ActionPathRAG.value : ActionPathRAG → String
  | .green => "green"
  | .amber => "amber"
  | .red => "red"

/-- The record returned by `_classify_material`. -/
structure ClassificationResult where
  label : QAClassificationLabel
  confidence_level : ConfidenceLevel
  action_path : ActionPathRAG
  reasoning : String
  deriving DecidableEq, Repr

/-- The rule cascade of `_classify_material`, after the eight flags have
been derived from the raw record (the source computes the flags as locals
and then runs this chain of conditionals). -/
def classify_from_flags (has_consumable has_pn has_qty has_specs has_vendor has_kit pn_mismatch obsolete_pn : Bool) : ClassificationResult :=
  if has_consumable && has_pn && has_qty && has_specs then
    { label := .CONSUMABLE_WITH_PN_SPEC_QTY, confidence_level := .high, action_path := .green,
      reasoning := "Consumable with PN, specifications, and quantity - Auto-Register" }
  else if has_consumable && has_pn && has_qty then
    { label := .CONSUMABLE_WITH_PN_QTY, confidence_level := .high, action_path := .green,
      reasoning := "Consumable with PN and quantity - Auto-Register" }
  else if has_consumable && has_pn && !has_qty then
    { label := .CONSUMABLE_NO_QTY, confidence_level := .medium, action_path := .amber,
      reasoning := "Consumable with PN but no quantity - Auto with Flag" }
  else if has_consumable && !has_pn then
    { label := .CONSUMABLE_NO_PN, confidence_level := .low, action_path := .red,
      reasoning := "Consumable mentioned but no part number - Human Intervention Required" }
  else if obsolete_pn then
    { label := .CONSUMABLE_OBSOLETE_PN, confidence_level := .low, action_path := .red,
      reasoning := "Obsolete part number detected - Human Intervention Required" }
  else if pn_mismatch then
    { label := .CONSUMABLE_PN_MISMATCH, confidence_level := .low, action_path := .red,
      reasoning := "Part number mismatch detected - Human Intervention Required" }
  else if has_vendor && has_kit && !has_pn then
    { label := .VENDOR_KIT_NO_PN, confidence_level := .low, action_path := .red,
      reasoning := "Vendor and kit mentioned but no PN - Human Intervention Required" }
  else if has_vendor && !has_consumable then
    { label := .VENDOR_NAME_ONLY, confidence_level := .medium, action_path := .amber,
      reasoning := "Only vendor name mentioned - Auto with Flag" }
  else if has_kit then
    { label := .PRE_ASSEMBLED_KIT, confidence_level := .medium, action_path := .amber,
      reasoning := "Pre-assembled kit mentioned - Auto with Flag" }
  else
    { label := .NO_CONSUMABLE_MENTIONED, confidence_level := .low, action_path := .red,
      reasoning := "No clear consumable/jigs/tools mentioned - Human Intervention Required" }

/-- The fallback result of the `except` arm of `_classify_material`
(reachable in the source only on an internal evaluation error). -/
def manual_review_result : ClassificationResult :=
  { label := .REQUIRES_MANUAL_REVIEW, confidence_level := .low, action_path := .red,
    reasoning := "Classification error - Manual review required" }

/-- A raw extracted item record, typed per the generation-prompt schema:
every field the classifier consults, with optional fields absent as
`none`.  `bool(...)` truthiness of the source is `truthyOptStr` /
`truthyOptNum` / list emptiness below. -/
structure MaterialData where
  consumable_jigs_tools : Bool := false
  part_number : Option String := none
  quantity : Option ℚ := none
  specifications : List (String × String) := []
  vendor_name : Option String := none
  kit_available : Bool := false
  pn_mismatch : Bool := false
  obsolete_pn : Bool := false
  deriving DecidableEq, Repr

/-- Python truthiness of an optional string (`None` and `""` are falsy). -/
def truthyOptStr : Option String → Bool
  | none => false
  | some s => !(s == "")

/-- Python truthiness of an optional number (`None` and `0` are falsy). -/
def truthyOptNum : Option ℚ → Bool
  | none => false
  | some q => !(q == 0)

/-- `_classify_material`: derive the eight flags by truthiness and run the
rule cascade.  The `try/except` of the source cannot fire on a well-typed
record (flag derivation is total), so the embedding is the happy path. -/
def classify_material (m : MaterialData) : ClassificationResult :=
  classify_from_flags
    m.consumable_jigs_tools
    (truthyOptStr m.part_number)
    (truthyOptNum m.quantity)
    (!m.specifications.isEmpty)
    (truthyOptStr m.vendor_name)
    m.kit_available
    m.pn_mismatch
    m.obsolete_pn

/-- A flag tuple, for stating the specification decision table of §4.3. -/
structure QAFlags where
  consumable : Bool
  part_number : Bool
  quantity : Bool
  specifications : Bool
  vendor : Bool
  kit : Bool
  pn_mismatch : Bool
  obsolete_pn : Bool
  deriving DecidableEq, Repr

/-- Modelled from the spec (§4.3): the ten-rule ordered decision table,
each row a guard over the flag tuple and the (label, confidence, action)
triple of that rule. -/
def spec_rule_table : List ((QAFlags → Bool) × (QAClassificationLabel × ConfidenceLevel × ActionPathRAG)) :=
  [ (fun f => f.consumable && f.part_number && f.quantity && f.specifications,
      (.CONSUMABLE_WITH_PN_SPEC_QTY, .high, .green)),
    (fun f => f.consumable && f.part_number && f.quantity && !f.specifications,
      (.CONSUMABLE_WITH_PN_QTY, .high, .green)),
    (fun f => f.consumable && f.part_number && !f.quantity,
      (.CONSUMABLE_NO_QTY, .medium, .amber)),
    (fun f => f.consumable && !f.part_number,
      (.CONSUMABLE_NO_PN, .low, .red)),
    (fun f => f.obsolete_pn,
      (.CONSUMABLE_OBSOLETE_PN, .low, .red)),
    (fun f => f.pn_mismatch,
      (.CONSUMABLE_PN_MISMATCH, .low, .red)),
    (fun f => f.vendor && f.kit && !f.part_number,
      (.VENDOR_KIT_NO_PN, .low, .red)),
    (fun f => f.vendor && !f.consumable,
      (.VENDOR_NAME_ONLY, .medium, .amber)),
    (fun f => f.kit,
      (.PRE_ASSEMBLED_KIT, .medium, .amber)),
    (fun _ => true,
      (.NO_CONSUMABLE_MENTIONED, .low, .red)) ]

/-- Modelled from the spec (§4.3): first matching rule wins; the manual
review triple is the out-of-table fallback (rule text: only on internal
error). -/
def spec_classify (f : QAFlags) : QAClassificationLabel × ConfidenceLevel × ActionPathRAG :=
  ((spec_rule_table.find? (fun r => r.1 f)).map (fun r => r.2)).getD
    (.REQUIRES_MANUAL_REVIEW, .low, .red)

/-! ## Extracted materials, deduplication, coordinator -/

/-- The pydantic `ExtractedMaterial` model (the fields produced by
`_create_enhanced_material` / consumed by the coordinator helpers). -/
structure ExtractedMaterial where
  name : String
  qa_material_name : String
  category : String := "uncategorized"
  specifications : List (String × String) := []
  context : String := ""
  confidence_score : ℚ := mkRat 5 10
  source_section : String := ""
  qa_excerpt : String := ""
  qc_process_step : Option String := none
  consumable_jigs_tools : Bool := false
  name_mismatch : Bool := false
  part_number : Option String := none
  pn_mismatch : Bool := false
  quantity : Option ℚ := none
  unit_of_measure : Option String := none
  obsolete_pn : Bool := false
  vendor_name : Option String := none
  kit_available : Bool := false
  ai_engine_processing : String := "AI processed"
  confidence_level : String := "medium"
  action_path_rag : String := "amber"
  classification_label : Nat := 13
  classification_reasoning : String := ""
  deriving DecidableEq, Repr

/-- The composite deduplication key of `_deduplicate_materials`:
lower-cased, stripped name and part number joined with a bar. -/
def unique_key (m : ExtractedMaterial) : String :=
  pyStrip (pyLower m.name) ++ "|" ++ pyStrip (pyLower (m.part_number.getD ""))

/-- The loop of `_deduplicate_materials`; `seen` is the set of keys
already emitted (the source uses a `set`, the model a list, membership
being all that is consulted). -/
def dedupGo (seen : List String) : List ExtractedMaterial → List ExtractedMaterial
  | [] => []
  | m :: rest =>
    if unique_key m ∈ seen then dedupGo seen rest
    else m :: dedupGo (unique_key m :: seen) rest

/-- `_deduplicate_materials`: drop every material whose composite key was
already seen, keeping first-seen order.  (The per-item `try/except` of the
source cannot fire: key computation on the typed record is total.) -/
def deduplicate_materials (materials : List ExtractedMaterial) : List ExtractedMaterial :=
  dedupGo [] materials

/-- The fixed demo materials of `_create_demo_materials_chunk_enhanced`
(unset pydantic fields take their schema defaults). -/
def demo_materials : List ExtractedMaterial :=
  [ { name := "M6x20mm Hex Bolt",
      qa_material_name := "M6x20mm Hex Bolt",
      category := "fasteners",
      specifications := [("size", "M6x20mm"), ("type", "hex bolt"), ("material", "stainless steel")],
      context := "Use M6×20 hex bolts for chassis mounting",
      confidence_score := mkRat 95 100,
      source_section := "Demo content - Step 2: Chassis Assembly",
      qa_excerpt := "M6×20mm bolts to secure the chassis",
      qc_process_step := some "Assembly Step 2",
      consumable_jigs_tools := true,
      part_number := some "BOLT-M6-20-SS",
      quantity := some (mkRat 4 1),
      unit_of_measure := some "pieces",
      ai_engine_processing := "Demo mode - AI classification",
      confidence_level := "high",
      action_path_rag := "green",
      classification_label := 2,
      classification_reasoning := "Demo: Consumable with PN and quantity - Auto-Register" },
    { name := "Industrial Adhesive Tape 25mm",
      qa_material_name := "Industrial Adhesive Tape 25mm",
      category := "adhesives",
      specifications := [("width", "25mm"), ("type", "double-sided"), ("length", "50mm")],
      context := "Use adhesive tape to secure cable harnesses",
      confidence_score := mkRat 88 100,
      source_section := "Demo content - Step 3: Wiring Work",
      qa_excerpt := "adhesive tape to secure cable harnesses",
      qc_process_step := some "Wiring Step 3",
      consumable_jigs_tools := true,
      part_number := some "TAPE-ADH-25",
      quantity := some (mkRat 2 1),
      unit_of_measure := some "rolls",
      ai_engine_processing := "Demo mode - AI classification",
      confidence_level := "high",
      action_path_rag := "green",
      classification_label := 2,
      classification_reasoning := "Demo: Consumable with PN and quantity - Auto-Register" },
    { name := "Silicone Sealing Compound",
      qa_material_name := "Silicone Sealing Compound",
      category := "seals",
      specifications := [("type", "silicone"), ("application", "joint sealing")],
      context := "Apply sealing compound to joint areas",
      confidence_score := mkRat 85 100,
      source_section := "Demo content - Step 4: Sealing Process",
      qa_excerpt := "silicone sealing material to joint areas",
      qc_process_step := some "Sealing Step 4",
      consumable_jigs_tools := true,
      part_number := some "SEAL-SIL-01",
      quantity := some (mkRat 1 1),
      unit_of_measure := some "tube",
      ai_engine_processing := "Demo mode - AI classification",
      confidence_level := "high",
      action_path_rag := "green",
      classification_label := 2,
      classification_reasoning := "Demo: Consumable with PN and quantity - Auto-Register" } ]

/-- `_calculate_confidence_distribution`: bucket counts
(high ≥ 0.8, medium ≥ 0.6, low otherwise). -/
def calculate_confidence_distribution (materials : List ExtractedMaterial) : Nat × Nat × Nat :=
  materials.foldl (fun acc m =>
    if m.confidence_score ≥ mkRat 8 10 then (acc.1 + 1, acc.2.1, acc.2.2)
    else if m.confidence_score ≥ mkRat 6 10 then (acc.1, acc.2.1 + 1, acc.2.2)
    else (acc.1, acc.2.1, acc.2.2 + 1)) (0, 0, 0)

/-- Increment a key of the breakdown mapping (insertion order kept). -/
def bumpKey (breakdown : List (String × Nat)) (k : String) : List (String × Nat) :=
  if (breakdown.find? (fun p => p.1 == k)).isSome then
    breakdown.map (fun p => if p.1 == k then (p.1, p.2 + 1) else p)
  else breakdown ++ [(k, 1)]

/-- The summary mapping of `_generate_classification_summary`. -/
structure ClassificationSummary where
  total_materials : Nat
  green_materials : Nat
  amber_materials : Nat
  red_materials : Nat
  classification_breakdown : List (String × Nat)
  deriving DecidableEq, Repr

/-- `_generate_classification_summary`. -/
def generate_classification_summary (materials : List ExtractedMaterial) : ClassificationSummary :=
  let green := (materials.filter (fun m => m.action_path_rag == "green")).length
  let amber := (materials.filter (fun m => m.action_path_rag == "amber")).length
  let red := (materials.filter (fun m => m.action_path_rag == "red")).length
  let breakdown := materials.foldl (fun b m => bumpKey b ("Label " ++ toString m.classification_label)) []
  { total_materials := materials.length, green_materials := green,
    amber_materials := amber, red_materials := red,
    classification_breakdown := breakdown }

/-- The mapping returned by `process_translated_content`; `demo_mode` is
`none` when the `"demo_mode"` key is absent from the returned dict and
`some b` when it is present with value `b`. -/
structure CoordinatorResult where
  success : Bool
  materials : List ExtractedMaterial
  total_materials : Nat
  chunks_processed : Nat
  successful_chunks : Nat
  confidence_distribution : Nat × Nat × Nat
  qa_classification_summary : ClassificationSummary
  demo_mode : Option Bool
  deriving DecidableEq, Repr

/-- The merge phase of `process_translated_content`, after the concurrent
per-chunk extractions have been gathered with `return_exceptions=True`:
`chunk_results` holds, per chunk, either the extracted list or the
exception the chunk raised.  A failed chunk or an empty chunk contributes
no materials and does not count as successful.  When no chunk contributed
anything the fixed demo materials are substituted; the result of this
no-exception path carries no `demo_mode` key (only the top-level
`except` handler, outside this merge, adds `demo_mode: True`). -/
def process_translated_content (chunk_results : List (Except String (List ExtractedMaterial))) : CoordinatorResult :=
  let all_materials := (chunk_results.map (fun r => match r with
    | .ok l => l
    | .error _ => [])).flatten
  let successful_chunks := (chunk_results.filter (fun r => match r with
    | .ok l => !l.isEmpty
    | .error _ => false)).length
  let all_materials := if all_materials.isEmpty then demo_materials else all_materials
  let unique_materials := deduplicate_materials all_materials
  { success := true,
    materials := unique_materials,
    total_materials := unique_materials.length,
    chunks_processed := chunk_results.length,
    successful_chunks := successful_chunks,
    confidence_distribution := calculate_confidence_distribution unique_materials,
    qa_classification_summary := generate_classification_summary unique_materials,
    demo_mode := none }

/-! ## Cross-source matcher (`ItemMatcher`) -/

/-- A row of the current supplier BOM (typed per the `SupplierBOMItem`
schema; only the fields the matcher reads are modelled). -/
structure SupplierRow where
  description : String
  part_number : String := ""
  deriving DecidableEq, Repr

/-- A knowledge-store candidate record, per the collaborator contract
(§6): a match type tag, a confidence score, a name and a part number,
plus the store identifier the matcher copies into exact/fuzzy results. -/
structure KBMatch where
  id : Nat
  material_name : String
  part_number : String
  confidence_score : ℚ
  match_type : String
  deriving DecidableEq, Repr

/-- An entry of the scored supplier candidate list built by
`_find_supplier_matches`. -/
structure SupplierMatchR where
  supplier_description : String
  supplier_part_number : String
  confidence_score : ℚ
  match_type : String
  supplier_data : SupplierRow
  deriving DecidableEq, Repr

/-- The dict returned by `_select_best_match` (absent keys of the two
dict shapes the source returns are modelled as `none` / fixed defaults). -/
structure BestMatch where
  id : Option Nat := none
  supplier_description : String
  supplier_part_number : String
  confidence_score : ℚ
  match_type : String
  match_source : String
  supplier_data : Option SupplierRow := none
  deriving DecidableEq, Repr

/-- A Python dict payload with dynamic keys. -/
abbrev PyDict := List (String × JValue)

/-- Python `d.get(k)` lookup (keys of the modelled dicts are unique, so
first-match lookup is Python dict lookup). -/
def dictGet : PyDict → String → Option JValue
  | [], _ => none
  | (a, b) :: t, k => if a == k then some b else dictGet t k

/-- Python `d.get(k, default)`: the stored value (even `None`) when the
key is present, the default otherwise. -/
def dictGetD (d : PyDict) (k : String) (v : JValue) : JValue :=
  (dictGet d k).getD v

/-- Python dict update `{**d, k: v}` for one key: replaces the value of
the key in place when present, appends the pair otherwise. -/
def dictSet : PyDict → String → JValue → PyDict
  | [], k, v => [(k, v)]
  | (a, b) :: t, k, v => if a == k then (k, v) :: t else (a, b) :: dictSet t k v

/-- Python `.lower()` on a dynamic value: raises (`AttributeError`)
unless the value is a string. -/
def pyLowerJ : JValue → Except String String
  | .str s => .ok (pyLower s)
  | _ => .error "AttributeError: lower"

/-- Python `.strip()` on a dynamic value: raises unless a string. -/
def pyStripJ : JValue → Except String String
  | .str s => .ok (pyStrip s)
  | _ => .error "AttributeError: strip"

/-- The name-similarity score of `_find_supplier_matches`:
`min(0.85, jaccard * 0.9)` over the distinct-word sets, `0.0` when no
word is shared.  The float expression `len(common)/len(union) * 0.9` is
written as the single exact rational `(9*|common|) / (10*|union|)`. -/
def jaccardConf (material_name supplier_desc : String) : ℚ :=
  let material_words := (pyWords material_name).dedup
  let supplier_words := (pyWords supplier_desc).dedup
  let common_words := material_words.filter (fun w => supplier_words.contains w)
  if common_words.isEmpty then 0
  else min (mkRat 85 100) (mkRat (9 * common_words.length) (10 * (material_words ++ supplier_words).dedup.length))

/-- Insert a scored candidate into a descending-sorted list, after all
entries scoring at least as much (so equal scores keep first-come order). -/
def insertScoredDesc (x : SupplierMatchR) : List SupplierMatchR → List SupplierMatchR
  | [] => [x]
  | y :: t => if y.confidence_score ≥ x.confidence_score then y :: insertScoredDesc x t
      else x :: y :: t

/-- Python `sorted(matches, key=confidence_score, reverse=True)`: stable
descending sort (left-to-right stable insertion). -/
def sortScoredDesc (l : List SupplierMatchR) : List SupplierMatchR :=
  l.foldl (fun acc x => insertScoredDesc x acc) []

/-- `_find_supplier_matches`: score every supplier row against the item
(exact part number 0.95; substring part number 0.8; otherwise word
overlap), keep scores above 0.3, and stable-sort descending by score.
`.lower()` / `.strip()` on non-string item fields raise, hence the
`Except` codomain. -/
def find_supplier_matches (item : PyDict) (supplier_bom : List SupplierRow) : Except String (List SupplierMatchR) := do
  let material_name ← pyLowerJ (dictGetD item "qa_material_name" (dictGetD item "name" (.str "")))
  let part_numberJ := dictGetD item "part_number" (.str "")
  let scored ← supplier_bom.mapM (fun row => do
    let supplier_desc := pyLower row.description
    let supplier_part := row.part_number
    let confidence : ℚ ←
      if truthyJ part_numberJ && !(supplier_part == "") then do
        let pn ← pyStripJ part_numberJ
        if pn == pyStrip supplier_part then pure (mkRat 95 100)
        else if containsSub (pyStrip supplier_part).toList pn.toList
            || containsSub pn.toList (pyStrip supplier_part).toList then pure (mkRat 8 10)
        else if !(material_name == "") && !(supplier_desc == "") then
          pure (jaccardConf material_name supplier_desc)
        else pure 0
      else if !(material_name == "") && !(supplier_desc == "") then
        pure (jaccardConf material_name supplier_desc)
      else pure 0
    if confidence > mkRat 3 10 then
      pure (some
              { supplier_description := row.description
                supplier_part_number := row.part_number
                confidence_score := confidence
                match_type := if confidence > mkRat 85 100 then "part_number" else "description"
                supplier_data := row })
    else pure (none : Option SupplierMatchR))
  pure (sortScoredDesc (scored.filterMap id))

/-- Python `max(kb_matches, key=confidence_score)` starting from `best`:
a later candidate replaces the current best only when strictly greater,
so the first of several tied maxima wins, as in the source. -/
def pyMaxKB : KBMatch → List KBMatch → KBMatch
  | best, [] => best
  | best, x :: rest => pyMaxKB (if x.confidence_score > best.confidence_score then x else best) rest

/-- The dict built for a winning knowledge-store exact match (display
score capped at 0.95). -/
def kbExactResult (k : KBMatch) : BestMatch :=
  { id := some k.id, supplier_description := k.material_name,
    supplier_part_number := k.part_number,
    confidence_score := min (mkRat 95 100) k.confidence_score,
    match_type := "exact", match_source := "knowledge_base" }

/-- The dict built for a knowledge-store fuzzy fallback (display score
floored at 0.6). -/
def kbFuzzyResult (k : KBMatch) : BestMatch :=
  { id := some k.id, supplier_description := k.material_name,
    supplier_part_number := k.part_number,
    confidence_score := max (mkRat 6 10) k.confidence_score,
    match_type := "fuzzy", match_source := "knowledge_base" }

/-- The dict built for a supplier-side winner: the spread of the
candidate entry plus the given `match_source` tag. -/
def supplierResult (s : SupplierMatchR) (src : String) : BestMatch :=
  { id := none, supplier_description := s.supplier_description,
    supplier_part_number := s.supplier_part_number,
    confidence_score := s.confidence_score,
    match_type := s.match_type, match_source := src,
    supplier_data := some s.supplier_data }

/-- `_select_best_match`: (a) first knowledge-store exact match above
0.8; else (b) the top supplier candidate above 0.7; else (c) the maximum
over all knowledge-store candidates when above 0.5 (returned labeled
fuzzy); else (d) the top supplier candidate however low; else (e) none. -/
def select_best_match (kb_matches : List KBMatch) (supplier_matches : List SupplierMatchR) : Option BestMatch :=
  let step_d : Option BestMatch :=
    match supplier_matches with
    | s :: _ => some (supplierResult s "supplier_bom_low_confidence")
    | [] => none
  let step_c : Option BestMatch :=
    match kb_matches with
    | k :: ks =>
      let best_kb := pyMaxKB k ks
      if best_kb.confidence_score > mkRat 5 10 then some (kbFuzzyResult best_kb)
      else step_d
    | [] => step_d
  match kb_matches.find? (fun m => m.match_type == "exact" && decide (m.confidence_score > mkRat 8 10)) with
  | some kb_match => some (kbExactResult kb_match)
  | none =>
    match supplier_matches with
    | best_supplier :: _ =>
      if best_supplier.confidence_score > mkRat 7 10 then some (supplierResult best_supplier "supplier_bom")
      else step_c
    | [] => step_c

/-- Modelled from the claim wording of §4.5 step 3, strict reading: step
(c) considers only knowledge-store candidates whose own match type is
fuzzy (not exact); ties at the maximum broken by first position, as fixed
by the design note of §9. -/
def claim_select_best_match (kb_matches : List KBMatch) (supplier_matches : List SupplierMatchR) : Option BestMatch :=
  let step_d : Option BestMatch :=
    match supplier_matches with
    | s :: _ => some (supplierResult s "supplier_bom_low_confidence")
    | [] => none
  let step_c : Option BestMatch :=
    match kb_matches.filter (fun m => !(m.match_type == "exact")) with
    | k :: ks =>
      let best_kb := pyMaxKB k ks
      if best_kb.confidence_score > mkRat 5 10 then some (kbFuzzyResult best_kb)
      else step_d
    | [] => step_d
  match kb_matches.find? (fun m => m.match_type == "exact" && decide (m.confidence_score > mkRat 8 10)) with
  | some kb_match => some (kbExactResult kb_match)
  | none =>
    match supplier_matches with
    | best_supplier :: _ =>
      if best_supplier.confidence_score > mkRat 7 10 then some (supplierResult best_supplier "supplier_bom")
      else step_c
    | [] => step_c

/-- The first knowledge-store candidate attaining the maximal score. -/
def kbBest : List KBMatch → Option KBMatch
  | [] => none
  | k :: ks => some (pyMaxKB k ks)

/-- Modelled from the spec (§4.5 step 3), as amended: the linear priority
chain (a) knowledge-store exact above 0.8, (b) top supplier candidate
above 0.7, (c) highest-scoring knowledge-store candidate of any match
type above 0.5 (labeled fuzzy in the result), (d) top supplier candidate
regardless of score labeled low-confidence, (e) no match. -/
def amended_select_best_match (kb_matches : List KBMatch) (supplier_matches : List SupplierMatchR) : Option BestMatch :=
  match kb_matches.find? (fun m => m.match_type == "exact" && decide (m.confidence_score > mkRat 8 10)) with
  | some k => some (kbExactResult k)
  | none =>
    match supplier_matches.head? with
    | some top =>
      if top.confidence_score > mkRat 7 10 then some (supplierResult top "supplier_bom")
      else
        match kbBest kb_matches with
        | some bk =>
          if bk.confidence_score > mkRat 5 10 then some (kbFuzzyResult bk)
          else some (supplierResult top "supplier_bom_low_confidence")
        | none => some (supplierResult top "supplier_bom_low_confidence")
    | none =>
      match kbBest kb_matches with
      | some bk =>
        if bk.confidence_score > mkRat 5 10 then some (kbFuzzyResult bk)
        else none
      | none => none

/-- `_determine_match_source`. -/
def determine_match_source (kb_matches : List KBMatch) (supplier_matches : List SupplierMatchR) : String :=
  if !kb_matches.isEmpty && !supplier_matches.isEmpty then "hybrid"
  else if !kb_matches.isEmpty then "knowledge_base"
  else if !supplier_matches.isEmpty then "supplier_bom"
  else "no_match"

/-- `_generate_match_reasoning`; `fmt` abstracts the Python float percent
formatting `f"{confidence:.1%}"` (decimal rendering of IEEE floats is
outside the rational model, and no proved property depends on it). -/
def generate_match_reasoning (kb_matches : List KBMatch) (supplier_matches : List SupplierMatchR) (best_match : Option BestMatch) (fmt : ℚ → String) : String :=
  match best_match with
  | none =>
    if kb_matches.isEmpty && supplier_matches.isEmpty then
      "No matches found in knowledge base or supplier BOM"
    else
      "Matches found but confidence scores below minimum threshold"
  | some b =>
    let p := fmt b.confidence_score
    if b.match_source == "knowledge_base" then
      if b.match_type == "exact" then
        "Exact match found in knowledge base from previous workflow (confidence: " ++ p ++ ")"
      else
        "Similar item found in knowledge base based on name similarity (confidence: " ++ p ++ ")"
    else if b.match_source == "supplier_bom" then
      if b.match_type == "part_number" then
        "Part number match found in current supplier BOM (confidence: " ++ p ++ ")"
      else
        "Description match found in current supplier BOM (confidence: " ++ p ++ ")"
    else if b.match_source == "supplier_bom_low_confidence" then
      "Low confidence match found in supplier BOM - requires review (confidence: " ++ p ++ ")"
    else if b.match_source == "hybrid" then
      "Match verified through both knowledge base and supplier BOM (confidence: " ++ p ++ ")"
    else
      "Match found with " ++ p ++ " confidence via " ++ b.match_source

/-- The enhanced match-result dict built per item by
`match_items_with_knowledge_base`: the spread of the original item dict
followed by the matching metadata keys, in source order. -/
def buildMatchResult (item : PyDict) (material_name : JValue) (kb_matches : List KBMatch)
    (supplier_matches : List SupplierMatchR) (best_match : Option BestMatch)
    (reasoning : String) (workflow_id timestamp : String) : PyDict :=
  let r := dictSet item "qa_material_name" material_name
  let r := dictSet r "knowledge_base_matches" (.num ((kb_matches.length : ℚ)))
  let r := dictSet r "supplier_matches" (.num ((supplier_matches.length : ℚ)))
  let r := dictSet r "has_previous_match" (.jbool (!kb_matches.isEmpty))
  let r := dictSet r "match_source" (.str (determine_match_source kb_matches supplier_matches))
  let r := dictSet r "confidence_score" (.num (match best_match with
    | some b => b.confidence_score
    | none => 0))
  let r := dictSet r "supplier_description" (.str (match best_match with
    | some b => b.supplier_description
    | none => ""))
  let r := dictSet r "supplier_part_number" (.str (match best_match with
    | some b => b.supplier_part_number
    | none => ""))
  let r := dictSet r "reasoning" (.str reasoning)
  let r := dictSet r "processing_timestamp" (.str timestamp)
  let r := dictSet r "matcher_version" (.str "2.0")
  dictSet r "workflow_id" (.str workflow_id)

/-- `match_items_with_knowledge_base`.  `kbFind` abstracts the
knowledge-store query `find_similar_items` (an external collaborator; the
surrounding `try/except` of the source reduces any store failure to the
empty candidate list, so a total function models the post-recovery
value); the `add_items` registration call does not influence the returned
value and is not modelled.  `fmt` is the percent formatter and
`timestamp` the value of `_get_timestamp()`. -/
def match_one_item (kbFind : JValue → JValue → List KBMatch) (fmt : ℚ → String)
    (supplier_bom : List SupplierRow) (workflow_id timestamp : String)
    (item : PyDict) : Except String PyDict := do
  let material_name := dictGetD item "qa_material_name" (dictGetD item "name" (.str ""))
  let part_number := dictGetD item "part_number" (.str "")
  let kb_matches := kbFind material_name part_number
  let supplier_matches ← find_supplier_matches item supplier_bom
  let best_match := select_best_match kb_matches supplier_matches
  let reasoning := generate_match_reasoning kb_matches supplier_matches best_match fmt
  pure (buildMatchResult item material_name kb_matches supplier_matches best_match reasoning workflow_id timestamp)

/-- The loop of `match_items_with_knowledge_base` over the extracted
items. -/
def match_items_with_knowledge_base (kbFind : JValue → JValue → List KBMatch) (fmt : ℚ → String)
    (extracted_items : List PyDict) (supplier_bom : List SupplierRow)
    (workflow_id timestamp : String) : Except String (List PyDict) :=
  extracted_items.mapM (match_one_item kbFind fmt supplier_bom workflow_id timestamp)

/-- Sum of the lengths of a group of pieces (the quantity the greedy
packing loop tracks in `current_length`). -/
def sumLens (g : List (List Char)) : Nat :=
  (g.map List.length).sum

/-- The keys `match_items_with_knowledge_base` writes into the result
dict after spreading the original item. -/
def overridden_match_keys : List String :=
  ["qa_material_name", "knowledge_base_matches", "supplier_matches",
   "has_previous_match", "match_source", "confidence_score",
   "supplier_description", "supplier_part_number", "reasoning",
   "processing_timestamp", "matcher_version", "workflow_id"]

/-! ## Chunker lemmas -/

theorem joinSep_cons_ne (sep x : List Char) (L : List (List Char)) (hL : L ≠ []) :
    joinSep sep (x :: L) = x ++ sep ++ joinSep sep L := by
  cases L with
  | nil => simp at hL
  | cons y t => rfl

theorem joinSep_append (sep : List Char) (A B : List (List Char)) (hA : A ≠ []) (hB : B ≠ []) :
    joinSep sep (A ++ B) = joinSep sep A ++ sep ++ joinSep sep B := by
  induction A with
  | nil => simp at hA
  | cons a A ih =>
    cases A with
    | nil =>
      cases B with
      | nil => simp at hB
      | cons b B => simp [joinSep_cons_ne, joinSep]
    | cons a2 A2 =>
      have hAB : (a2 :: A2) ++ B ≠ [] := by simp
      have h1 : joinSep sep ((a :: a2 :: A2) ++ B)
          = a ++ sep ++ joinSep sep ((a2 :: A2) ++ B) := by
        simpa using joinSep_cons_ne sep a ((a2 :: A2) ++ B) hAB
      rw [h1, ih (by simp)]
      rw [joinSep_cons_ne sep a (a2 :: A2) (by simp)]
      simp [List.append_assoc]

theorem flatten_ne_nil (G : List (List (List Char))) (hG : G ≠ []) (h : ∀ g ∈ G, g ≠ []) :
    G.flatten ≠ [] := by
  cases G with
  | nil => simp at hG
  | cons g G =>
    have : g ≠ [] := h g (by simp)
    simp only [List.flatten_cons]
    intro hcontra
    rcases List.append_eq_nil.mp hcontra with ⟨h1, _⟩
    exact this h1

theorem joinSep_map_flatten (sep : List Char) (G : List (List (List Char)))
    (h : ∀ g ∈ G, g ≠ []) :
    joinSep sep (G.map (joinSep sep)) = joinSep sep G.flatten := by
  induction G with
  | nil => rfl
  | cons g G ih =>
    cases G with
    | nil => simp [joinSep]
    | cons g2 G2 =>
      have hg : g ≠ [] := h g (by simp)
      have hrest : ∀ x ∈ g2 :: G2, x ≠ [] := by
        intro x hx
        exact h x (List.mem_cons_of_mem _ hx)
      have hflat : (g2 :: G2).flatten ≠ [] := flatten_ne_nil _ (by simp) hrest
      have hmapne : (g2 :: G2).map (joinSep sep) ≠ [] := by simp
      calc joinSep sep ((g :: g2 :: G2).map (joinSep sep))
          = joinSep sep g ++ sep ++ joinSep sep ((g2 :: G2).map (joinSep sep)) := by
            simpa using joinSep_cons_ne sep (joinSep sep g) ((g2 :: G2).map (joinSep sep)) hmapne
        _ = joinSep sep g ++ sep ++ joinSep sep (g2 :: G2).flatten := by rw [ih hrest]
        _ = joinSep sep (g ++ (g2 :: G2).flatten) := (joinSep_append sep g _ hg hflat).symm
        _ = joinSep sep (g :: g2 :: G2).flatten := by simp

theorem splitOnAux_ne_nil (sep : List Char) (fuel : Nat) (s acc : List Char) :
    splitOnAux sep fuel s acc ≠ [] := by
  induction fuel generalizing s acc with
  | zero => cases s <;> simp [splitOnAux]
  | succ n ih =>
    cases s with
    | nil => simp [splitOnAux]
    | cons c rest =>
      simp only [splitOnAux]
      split
      · simp
      · exact ih rest (c :: acc)

theorem splitOnAux_join (sep : List Char) (hsep : sep ≠ []) (fuel : Nat) (s acc : List Char)
    (hfuel : s.length ≤ fuel) :
    joinSep sep (splitOnAux sep fuel s acc) = acc.reverse ++ s := by
  induction fuel generalizing s acc with
  | zero =>
    have hs : s = [] := by cases s <;> simp_all
    subst hs
    simp [splitOnAux, joinSep]
  | succ n ih =>
    cases s with
    | nil => simp [splitOnAux, joinSep]
    | cons c rest =>
      simp only [splitOnAux]
      by_cases hpre : sep.isPrefixOf (c :: rest)
      · rw [if_pos hpre]
        have hp : sep <+: (c :: rest) := by
          rw [← List.isPrefixOf_iff_prefix]
          exact hpre
        have hdrop : sep ++ List.drop sep.length (c :: rest) = c :: rest :=
          List.prefix_iff_eq_append.mp hp
        have hlen : (List.drop sep.length (c :: rest)).length ≤ n := by
          have h0 : 0 < sep.length := List.length_pos.mpr hsep
          simp only [List.length_drop, List.length_cons]
          simp only [List.length_cons] at hfuel
          omega
        rw [joinSep_cons_ne sep _ _ (splitOnAux_ne_nil sep n _ _)]
        rw [ih _ _ hlen]
        simp only [List.reverse_nil, List.nil_append, List.append_assoc]
        rw [hdrop]
      · rw [if_neg hpre]
        rw [ih rest (c :: acc) (by simp only [List.length_cons] at hfuel; omega)]
        simp

theorem splitOnSep_join (sep : List Char) (hsep : sep ≠ []) (s : List Char) :
    joinSep sep (splitOnSep sep s) = s := by
  simpa using splitOnAux_join sep hsep s.length s [] (le_refl _)

theorem packGo_flatten (maxSize : Nat) (sections cur : List (List Char)) (curLen : Nat) :
    (packGo maxSize sections cur curLen).flatten = cur ++ sections := by
  induction sections, cur, curLen using packGo.induct maxSize with
  | case1 cur x hcur =>
    simp only [packGo, hcur, if_true]
    simp [List.isEmpty_iff.mp hcur]
  | case2 cur x hcur =>
    simp only [packGo, hcur, if_false]
    simp
  | case3 s rest cur curLen hcond ih =>
    simp only [packGo, hcond, if_true, List.flatten_cons, ih]
    simp
  | case4 s rest cur curLen hcond ih =>
    show (if (decide (curLen + s.length > maxSize) && !cur.isEmpty) = true then
        cur :: packGo maxSize rest [s] s.length
      else packGo maxSize rest (cur ++ [s]) (curLen + s.length)).flatten = cur ++ s :: rest
    rw [if_neg hcond, ih]
    simp


theorem packGo_mem_ne_nil (maxSize : Nat) (sections cur : List (List Char)) (curLen : Nat) :
    ∀ g ∈ packGo maxSize sections cur curLen, g ≠ [] := by
  induction sections, cur, curLen using packGo.induct maxSize with
  | case1 cur x hcur =>
    simp only [packGo, hcur, if_true]
    simp
  | case2 cur x hcur =>
    simp only [packGo, hcur, if_false]
    intro g hmem
    rcases List.mem_singleton.mp hmem with rfl
    exact fun h => by simp [h] at hcur
  | case3 s rest cur curLen hcond ih =>
    simp only [packGo, hcond, if_true]
    intro g hmem
    rcases List.mem_cons.mp hmem with rfl | hmem
    · have hne : (!g.isEmpty) = true := (Bool.and_eq_true_iff.mp hcond).2
      intro h
      simp [h] at hne
    · exact ih g hmem
  | case4 s rest cur curLen hcond ih =>
    simp only [packGo, hcond, if_false]
    exact ih

theorem packGo_mem_size (maxSize : Nat) (sections cur : List (List Char)) (curLen : Nat) :
    curLen = sumLens cur → (cur = [] ∨ cur.length = 1 ∨ sumLens cur ≤ maxSize) →
    ∀ g ∈ packGo maxSize sections cur curLen, g.length = 1 ∨ sumLens g ≤ maxSize := by
  induction sections, cur, curLen using packGo.induct maxSize with
  | case1 cur x hcur =>
    intro _ _ g hmem
    simp only [packGo, hcur, if_true] at hmem
    simp at hmem
  | case2 cur x hcur =>
    intro _ hinv g hmem
    simp only [packGo, hcur, if_false] at hmem
    rcases List.mem_singleton.mp hmem with rfl
    rcases hinv with h | h | h
    · simp [h] at hcur
    · exact Or.inl h
    · exact Or.inr h
  | case3 s rest cur curLen hcond ih =>
    intro hlen hinv g hmem
    simp only [packGo, hcond, if_true, List.mem_cons] at hmem
    rcases hmem with rfl | hmem
    · rcases hinv with h | h | h
      · have hne : (!g.isEmpty) = true := (Bool.and_eq_true_iff.mp hcond).2
        simp [h] at hne
      · exact Or.inl h
      · exact Or.inr h
    · exact ih (by simp [sumLens]) (Or.inr (Or.inl rfl)) g hmem
  | case4 s rest cur curLen hcond ih =>
    intro hlen hinv g hmem
    simp only [packGo, hcond, if_false] at hmem
    have hsum : curLen + s.length = sumLens (cur ++ [s]) := by
      simp [sumLens, hlen]
    have hcases : curLen + s.length ≤ maxSize ∨ cur = [] := by
      by_contra hc
      push_neg at hc
      obtain ⟨h1, h2⟩ := hc
      apply hcond
      simp only [Bool.and_eq_true, decide_eq_true_eq]
      refine ⟨by omega, ?_⟩
      simp [List.isEmpty_iff, h2]
    have hinv2 : cur ++ [s] = [] ∨ (cur ++ [s]).length = 1 ∨ sumLens (cur ++ [s]) ≤ maxSize := by
      rcases hcases with h | h
      · right; right; omega
      · subst h
        right; left; simp
    exact ih hsum hinv2 g hmem

theorem splitOnAux_single_not_mem (c : Char) (fuel : Nat) (s acc : List Char)
    (hfuel : s.length ≤ fuel) (hacc : c ∉ acc) :
    ∀ p ∈ splitOnAux [c] fuel s acc, c ∉ p := by
  induction fuel generalizing s acc with
  | zero =>
    have hs : s = [] := by cases s <;> simp_all
    subst hs
    intro p hp
    simp only [splitOnAux] at hp
    rcases List.mem_singleton.mp hp with rfl
    simpa using hacc
  | succ n ih =>
    intro p hp
    cases s with
    | nil =>
      simp only [splitOnAux] at hp
      rcases List.mem_singleton.mp hp with rfl
      simpa using hacc
    | cons d rest =>
      simp only [splitOnAux] at hp
      by_cases hpre : ([c] : List Char).isPrefixOf (d :: rest)
      · rw [if_pos hpre] at hp
        rcases List.mem_cons.mp hp with rfl | hp
        · simpa using hacc
        · refine ih _ [] ?_ (by simp) p hp
          simp only [List.length_drop, List.length_cons] at *
          omega
      · rw [if_neg hpre] at hp
        refine ih rest (d :: acc) (by simp only [List.length_cons] at hfuel; omega) ?_ p hp
        have hcd : c ≠ d := by
          intro hh
          subst hh
          exact hpre (by simp [List.isPrefixOf])
        simp [List.mem_cons, hcd, hacc]

theorem joinSep_single_stats (c : Char) (g : List (List Char)) (hg : g ≠ [])
    (hmem : ∀ l ∈ g, c ∉ l) :
    (joinSep [c] g).length = sumLens g + (g.length - 1) ∧
    (joinSep [c] g).count c = g.length - 1 := by
  induction g with
  | nil => simp at hg
  | cons x G ih =>
    cases G with
    | nil =>
      refine ⟨by simp [joinSep, sumLens], ?_⟩
      have := hmem x (by simp)
      simp [joinSep, List.count_eq_zero.mpr this]
    | cons y t =>
      have hx : c ∉ x := hmem x (by simp)
      have hrest : ∀ l ∈ y :: t, c ∉ l := fun l hl => hmem l (List.mem_cons_of_mem _ hl)
      obtain ⟨hl, hc⟩ := ih (by simp) hrest
      have hjoin : joinSep [c] (x :: y :: t) = x ++ [c] ++ joinSep [c] (y :: t) := rfl
      constructor
      · have h1 : (x ++ [c] ++ joinSep [c] (y :: t)).length
            = x.length + 1 + (joinSep [c] (y :: t)).length := by
          simp
          omega
        rw [hjoin, h1, hl]
        have h2 : sumLens (x :: y :: t) = x.length + sumLens (y :: t) := by
          simp [sumLens]
        rw [h2]
        simp only [List.length_cons]
        omega
      · have h1 : (x ++ [c] ++ joinSep [c] (y :: t)).count c
            = x.count c + ([c] : List Char).count c + (joinSep [c] (y :: t)).count c := by
          simp [List.count_append]
          omega
        have h2 : ([c] : List Char).count c = 1 := by simp
        rw [hjoin, h1, hc, List.count_eq_zero.mpr hx, h2]
        simp only [List.length_cons]
        omega

theorem split_large_chunk_join (chunk : List Char) (m : Nat) :
    joinSep nlSep (split_large_chunk chunk m) = chunk := by
  unfold split_large_chunk
  split
  · rfl
  · rw [joinSep_map_flatten nlSep _ (packGo_mem_ne_nil _ _ _ _)]
    rw [packGo_flatten]
    simpa using splitOnSep_join nlSep (by decide) chunk

/-- C5: for every text and size limit, the chunks can be grouped so that
the chunker output is exactly the flattening of the groups, rejoining
each group with single newlines and the groups with blank lines
reconstructs the input text exactly: no characters are lost. -/
theorem c5_chunking_round_trip (text : List Char) (max_chunk_size : Nat) :
    ∃ groups : List (List (List Char)),
      split_into_extraction_chunks text max_chunk_size = groups.flatten ∧
      joinSep nlnlSep (groups.map (joinSep nlSep)) = text := by
  unfold split_into_extraction_chunks
  split
  · exact ⟨[[text]], by simp, by simp [joinSep]⟩
  · refine ⟨((packGo max_chunk_size (splitOnSep nlnlSep text) [] 0).map (joinSep nlnlSep)).map
      (fun c => if c.length > max_chunk_size then split_large_chunk c max_chunk_size else [c]), rfl, ?_⟩
    rw [List.map_map]
    have hcongr : ∀ p ∈ (packGo max_chunk_size (splitOnSep nlnlSep text) [] 0).map (joinSep nlnlSep),
        (joinSep nlSep ∘ fun c => if c.length > max_chunk_size then split_large_chunk c max_chunk_size else [c]) p = id p := by
      intro p _
      by_cases hp : p.length > max_chunk_size
      · simp [hp, split_large_chunk_join]
      · simp [hp, joinSep]
    rw [List.map_congr_left hcongr, List.map_id]
    rw [joinSep_map_flatten _ _ (packGo_mem_ne_nil _ _ _ _)]
    rw [packGo_flatten]
    simpa using splitOnSep_join nlnlSep (by decide) text

/-- C4 (amended): every chunk either contains no newline (it is a single
indivisible line, which may exceed the limit), or the sum of its line
lengths — its length not counting the newline separator characters the
greedy packer does not track — is at most the limit; equivalently its
length is at most the limit plus its newline count. -/
theorem c4_chunk_size_amended (text : List Char) (max_chunk_size : Nat) :
    ∀ ch ∈ split_into_extraction_chunks text max_chunk_size,
      ch.count '\n' = 0 ∨ ch.length ≤ max_chunk_size + ch.count '\n' := by
  intro ch hc
  unfold split_into_extraction_chunks at hc
  by_cases ht : text.length ≤ max_chunk_size
  · rw [if_pos ht] at hc
    rcases List.mem_singleton.mp hc with rfl
    right
    omega
  · rw [if_neg ht] at hc
    simp only [List.mem_flatten, List.mem_map] at hc
    obtain ⟨sub, ⟨p, hp, rfl⟩, hchsub⟩ := hc
    by_cases hbig : p.length > max_chunk_size
    · rw [if_pos hbig] at hchsub
      unfold split_large_chunk at hchsub
      rw [if_neg (by omega)] at hchsub
      simp only [List.mem_map] at hchsub
      obtain ⟨g, hg, rfl⟩ := hchsub
      have hgne : g ≠ [] := packGo_mem_ne_nil _ _ _ _ g hg
      have hsize : g.length = 1 ∨ sumLens g ≤ max_chunk_size :=
        packGo_mem_size _ _ _ _ (by simp [sumLens]) (Or.inl rfl) g hg
      have hnomem : ∀ l ∈ g, '\n' ∉ l := by
        intro l hl
        have hmem2 : l ∈ (packGo max_chunk_size (splitOnSep nlSep p) [] 0).flatten :=
          List.mem_flatten.mpr ⟨g, hg, hl⟩
        rw [packGo_flatten] at hmem2
        simp only [List.nil_append] at hmem2
        exact splitOnAux_single_not_mem '\n' p.length p [] (le_refl _) (by simp) l hmem2
      have hstats := joinSep_single_stats '\n' g hgne hnomem
      have hsep : nlSep = ['\n'] := rfl
      rw [hsep]
      rcases hsize with h1 | h1
      · left
        rw [hstats.2, h1]
      · right
        rw [hstats.1, hstats.2]
        omega
    · rw [if_neg hbig] at hchsub
      rcases List.mem_singleton.mp hchsub with rfl
      right
      omega

/-- C4 (counterexample): on the text `"aaa\nbb"` with limit 5 the chunker
returns the whole text as one chunk of length 6 — exceeding the limit —
and that chunk contains a newline, so it is not a single indivisible
line: the bound claimed by the specification fails as stated. -/
theorem c4_chunk_size_counterexample :
    split_into_extraction_chunks "aaa\nbb".toList 5 = ["aaa\nbb".toList] ∧
    ¬ (∀ ch ∈ split_into_extraction_chunks "aaa\nbb".toList 5,
        ch.length ≤ 5 ∨ ch.count '\n' = 0) := by
  constructor
  · decide
  · decide

/-- C3: the resilient record decoder is total and returns `Except.ok`
with some (possibly empty) list for every input string — every
`json.loads` failure is handled by a fallback strategy, so no exception
escapes. -/
theorem c3_decoder_never_raises (response : String) :
    ∃ records, parse_json_response response = Except.ok records := by
  have hbridge : ∀ (e : Except String (List JValue)), e.isOk = true → ∃ r, e = Except.ok r := by
    intro e he
    cases e with
    | ok r => exact ⟨r, rfl⟩
    | error err => simp [Except.isOk, Except.toBool] at he
  apply hbridge
  unfold parse_json_response
  dsimp only
  repeat' split
  all_goals rfl

/-- C9: the strategy-2 regex of `_parse_json_response` can never match
(its `$$` are end anchors, not escaped brackets), so on input
`junk [ {"foo": 1} ] junk` — where direct parsing fails and the cleaned
text contains a bracket-delimited substring that parses as a non-empty
JSON array — the decoder does not return that array: strategy 3 drops the
object (no `name` member) and strategy 4 fails, so the decoder returns
the empty list. -/
theorem c9_strategy2_never_fires :
    parse_json_response "junk [ \x7b\"foo\": 1\x7d ] junk" = Except.ok [] ∧
    json_loads "[ \x7b\"foo\": 1\x7d ]" = some (JValue.arr [JValue.obj [("foo", JValue.num 1)]]) ∧
    strategy2_array_matches "junk [ \x7b\"foo\": 1\x7d ] junk" = [] :=
  ⟨rfl, rfl, rfl⟩

/-- C2: the classification engine is a pure function of the eight
boolean/presence flags; for every flag tuple it returns the (label,
confidence level, action path) triple of the first matching rule of the
ten-rule §4.3 decision table, and the flags-level cascade never produces
the requires-manual-review fallback (reachable in the source only from
its `except` arm, on an internal error). -/
theorem c2_classification_rulebook :
    ∀ has_consumable has_pn has_qty has_specs has_vendor has_kit pn_mismatch obsolete_pn : Bool,
      ((classify_from_flags has_consumable has_pn has_qty has_specs has_vendor has_kit pn_mismatch obsolete_pn).label,
       (classify_from_flags has_consumable has_pn has_qty has_specs has_vendor has_kit pn_mismatch obsolete_pn).confidence_level,
       (classify_from_flags has_consumable has_pn has_qty has_specs has_vendor has_kit pn_mismatch obsolete_pn).action_path) =
        spec_classify ⟨has_consumable, has_pn, has_qty, has_specs, has_vendor, has_kit, pn_mismatch, obsolete_pn⟩ ∧
      (classify_from_flags has_consumable has_pn has_qty has_specs has_vendor has_kit pn_mismatch obsolete_pn).label ≠
        QAClassificationLabel.REQUIRES_MANUAL_REVIEW := by
  decide

/-- C10: the classifier derives its presence flags by Python truthiness:
a record whose quantity is the number 0, or whose part number is the
empty string, classifies exactly as if the field were absent; in
particular a consumable with a part number and quantity 0 gets the
"consumable, no quantity" medium/amber result, not high/green. -/
theorem c10_truthiness_flags :
    (∀ m : MaterialData,
      classify_material { m with quantity := some 0 } = classify_material { m with quantity := none }) ∧
    (∀ m : MaterialData,
      classify_material { m with part_number := some "" } = classify_material { m with part_number := none }) ∧
    classify_material { consumable_jigs_tools := true, part_number := some "PN-1", quantity := some 0 } =
      { label := .CONSUMABLE_NO_QTY, confidence_level := .medium, action_path := .amber,
        reasoning := "Consumable with PN but no quantity - Auto with Flag" } := by
  refine ⟨fun m => rfl, fun m => rfl, by decide⟩

theorem dedupGo_key_not_mem (l : List ExtractedMaterial) :
    ∀ seen, ∀ m ∈ dedupGo seen l, unique_key m ∉ seen := by
  induction l with
  | nil =>
    intro seen m hm
    simp [dedupGo] at hm
  | cons x rest ih =>
    intro seen m hm
    by_cases h : unique_key x ∈ seen
    · rw [dedupGo, if_pos h] at hm
      exact ih seen m hm
    · rw [dedupGo, if_neg h] at hm
      rcases List.mem_cons.mp hm with rfl | hm
      · exact h
      · have := ih (unique_key x :: seen) m hm
        intro hcontra
        exact this (List.mem_cons_of_mem _ hcontra)

theorem dedupGo_sublist (l : List ExtractedMaterial) :
    ∀ seen, (dedupGo seen l).Sublist l := by
  induction l with
  | nil => intro seen; simp [dedupGo]
  | cons x rest ih =>
    intro seen
    by_cases h : unique_key x ∈ seen
    · rw [dedupGo, if_pos h]
      exact (ih seen).cons x
    · rw [dedupGo, if_neg h]
      exact (ih (unique_key x :: seen)).cons₂ x

theorem dedupGo_pairwise (l : List ExtractedMaterial) :
    ∀ seen, (dedupGo seen l).Pairwise (fun a b => unique_key a ≠ unique_key b) := by
  induction l with
  | nil => intro seen; simp [dedupGo]
  | cons x rest ih =>
    intro seen
    by_cases h : unique_key x ∈ seen
    · rw [dedupGo, if_pos h]
      exact ih seen
    · rw [dedupGo, if_neg h]
      refine List.Pairwise.cons ?_ (ih (unique_key x :: seen))
      intro b hb
      have := dedupGo_key_not_mem rest (unique_key x :: seen) b hb
      intro hcontra
      exact this (by simp [hcontra])

theorem dedupGo_idem (l : List ExtractedMaterial) :
    ∀ seen, dedupGo seen (dedupGo seen l) = dedupGo seen l := by
  induction l with
  | nil => intro seen; simp [dedupGo]
  | cons x rest ih =>
    intro seen
    by_cases h : unique_key x ∈ seen
    · rw [dedupGo, if_pos h]
      exact ih seen
    · rw [dedupGo, if_neg h]
      rw [dedupGo, if_neg h]
      rw [ih (unique_key x :: seen)]

/-- C7: deduplication is idempotent, no two surviving items share a
composite (lower-cased stripped name, lower-cased stripped part number)
key, and the survivors are a sublist of the input — first-seen order is
preserved. -/
theorem c7_dedup_properties (materials : List ExtractedMaterial) :
    deduplicate_materials (deduplicate_materials materials) = deduplicate_materials materials ∧
    (deduplicate_materials materials).Pairwise (fun a b => unique_key a ≠ unique_key b) ∧
    (deduplicate_materials materials).Sublist materials :=
  ⟨dedupGo_idem materials [], dedupGo_pairwise materials [], dedupGo_sublist materials []⟩

/-- C6 (amended): when no chunk yields any record (every gathered chunk
result is an empty list or an exception), the coordinator returns the
fixed demo item set — but on this no-exception path the returned mapping
carries no demo-mode indicator: the `demo_mode` key is set only by the
top-level exception handler, which this path does not reach.  The result
is reported as a success. -/
theorem c6_demo_fallback (chunk_results : List (Except String (List ExtractedMaterial)))
    (hempty : ∀ r ∈ chunk_results, match r with
      | Except.ok l => l = []
      | Except.error _ => True) :
    (process_translated_content chunk_results).materials = demo_materials ∧
    (process_translated_content chunk_results).success = true ∧
    (process_translated_content chunk_results).demo_mode = none := by
  have hflat : (chunk_results.map (fun r => match r with
      | Except.ok l => l
      | Except.error _ => [])).flatten = [] := by
    induction chunk_results with
    | nil => rfl
    | cons r rest ih =>
      have hr := hempty r (by simp)
      have hrest : ∀ x ∈ rest, match x with
          | Except.ok l => l = []
          | Except.error _ => True := by
        intro x hx
        exact hempty x (List.mem_cons_of_mem _ hx)
      simp only [List.map_cons, List.flatten_cons, ih hrest]
      cases r with
      | ok l => simpa using hr
      | error e => rfl
  have hdemo : deduplicate_materials demo_materials = demo_materials := by decide
  unfold process_translated_content
  rw [hflat]
  simp [hdemo]

/-- C6 (witness): the single-chunk run whose one chunk decoded to no
records is an instance of the amended theorem. -/
theorem c6_demo_fallback_witness :
    (process_translated_content [Except.ok []]).materials = demo_materials ∧
    (process_translated_content [Except.ok []]).success = true ∧
    (process_translated_content [Except.ok []]).demo_mode = none :=
  c6_demo_fallback [Except.ok []] (by simp)

/-- C6 (counterexample): for the run in which the only chunk decoded to
no records and no exception reached the top-level handler, the
coordinator does substitute the demo items, but the returned mapping has
no demo-mode key at all (`demo_mode = none`), contradicting the claim
that an explicit demo-mode indicator flag is carried. -/
theorem c6_demo_fallback_counterexample :
    (process_translated_content [Except.ok []]).materials = demo_materials ∧
    ¬ ((process_translated_content [Except.ok []]).demo_mode = some true) := by
  constructor
  · decide
  · decide

/-- C1 (amended): the matchers selection follows exactly the priority
(a) first knowledge-store exact match above 0.8 (display capped 0.95);
(b) top supplier candidate above 0.7; (c) the highest-scoring
knowledge-store candidate of any match type above 0.5, returned labeled
fuzzy (display floored 0.6); (d) top supplier candidate regardless of
score, labeled low-confidence; (e) no match. -/
theorem c1_select_priority (kb_matches : List KBMatch) (supplier_matches : List SupplierMatchR) :
    select_best_match kb_matches supplier_matches =
      amended_select_best_match kb_matches supplier_matches := by
  unfold select_best_match amended_select_best_match kbBest
  cases hf : kb_matches.find? (fun m => m.match_type == "exact" && decide (m.confidence_score > mkRat 8 10)) with
  | some k => rfl
  | none =>
    cases supplier_matches with
    | nil =>
      cases kb_matches with
      | nil => rfl
      | cons k ks => rfl
    | cons top rest =>
      by_cases htop : top.confidence_score > mkRat 7 10
      · simp only [List.head?, if_pos htop]
      · simp only [List.head?, if_neg htop]
        cases kb_matches with
        | nil => rfl
        | cons k ks => rfl

/-- C1 (counterexample): a knowledge store returning one candidate whose
own match type is exact with score 0.7, with no supplier candidates.  The
claimed priority (strict reading: step (c) considers fuzzy candidates)
yields no match, but the source selects that exact-typed candidate at the
fuzzy-fallback step and returns it labeled fuzzy with score 0.7. -/
theorem c1_select_priority_counterexample :
    select_best_match [⟨7, "Widget", "P1", mkRat 7 10, "exact"⟩] [] =
      some (kbFuzzyResult ⟨7, "Widget", "P1", mkRat 7 10, "exact"⟩) ∧
    claim_select_best_match [⟨7, "Widget", "P1", mkRat 7 10, "exact"⟩] [] = none ∧
    select_best_match [⟨7, "Widget", "P1", mkRat 7 10, "exact"⟩] [] ≠
      claim_select_best_match [⟨7, "Widget", "P1", mkRat 7 10, "exact"⟩] [] := by
  refine ⟨by decide, by decide, by decide⟩

theorem dictGet_dictSet (d : PyDict) (k : String) (v : JValue) (q : String) :
    dictGet (dictSet d k v) q = if q = k then some v else dictGet d q := by
  induction d with
  | nil =>
    by_cases h : q = k
    · simp [dictSet, dictGet, h]
    · simp [dictSet, dictGet, h, Ne.symm h]
  | cons hd t ih =>
    obtain ⟨a, b⟩ := hd
    by_cases hak : a = k
    · subst hak
      rw [dictSet]
      simp only [beq_self_eq_true, if_true]
      by_cases hq : q = a
      · subst hq
        simp [dictGet]
      · simp [dictGet, hq, Ne.symm hq]
    · rw [dictSet]
      have hak2 : (a == k) = false := beq_eq_false_iff_ne.mpr hak
      rw [hak2]
      simp only [Bool.false_eq_true, if_false]
      by_cases hq : q = a
      · subst hq
        simp [dictGet, hak]
      · have hq2 : (a == q) = false := beq_eq_false_iff_ne.mpr (Ne.symm hq)
        simp only [dictGet, hq2, Bool.false_eq_true, if_false, ih]

theorem buildMatchResult_not_overridden (item : PyDict) (mn : JValue) (kb_matches : List KBMatch)
    (supplier_matches : List SupplierMatchR) (best_match : Option BestMatch)
    (reasoning wf ts : String) (k : String) (hk : k ∉ overridden_match_keys) :
    dictGet (buildMatchResult item mn kb_matches supplier_matches best_match reasoning wf ts) k
      = dictGet item k := by
  simp only [overridden_match_keys, List.mem_cons, List.not_mem_nil, or_false, not_or] at hk
  obtain ⟨h1, h2, h3, h4, h5, h6, h7, h8, h9, h10, h11, h12⟩ := hk
  simp only [buildMatchResult, dictGet_dictSet, h1, h2, h3, h4, h5, h6, h7, h8, h9, h10,
    h11, h12, if_false]

theorem buildMatchResult_qa_name (item : PyDict) (mn : JValue) (kb_matches : List KBMatch)
    (supplier_matches : List SupplierMatchR) (best_match : Option BestMatch)
    (reasoning wf ts : String) :
    dictGet (buildMatchResult item mn kb_matches supplier_matches best_match reasoning wf ts)
      "qa_material_name" = some mn := by
  simp [buildMatchResult, dictGet_dictSet]

theorem match_one_item_frame (kbFind : JValue → JValue → List KBMatch) (fmt : ℚ → String)
    (bom : List SupplierRow) (wf ts : String) (item r : PyDict)
    (hone : match_one_item kbFind fmt bom wf ts item = Except.ok r) :
    (∀ k, k ∉ overridden_match_keys → dictGet r k = dictGet item k) ∧
    dictGet r "qa_material_name" =
      some (dictGetD item "qa_material_name" (dictGetD item "name" (JValue.str ""))) := by
  unfold match_one_item at hone
  cases hsup : find_supplier_matches item bom with
  | error e =>
    rw [hsup] at hone
    simp [Bind.bind, Except.bind] at hone
  | ok sup =>
    rw [hsup] at hone
    simp only [Bind.bind, Except.bind, pure, Except.pure, Except.ok.injEq] at hone
    subst hone
    exact ⟨fun k hk => buildMatchResult_not_overridden _ _ _ _ _ _ _ _ k hk,
      buildMatchResult_qa_name _ _ _ _ _ _ _ _⟩

/-- C8 (amended): whenever the matcher run succeeds, each MatchResult
dict carries through every field of its original extracted item
unchanged except the overridden matching-metadata keys — of the original
fields that is only `confidence_score`, which is replaced by the winning
match score (0.0 when no match) — and its `qa_material_name` key is
always populated with the original value, falling back to `name` (then
to the empty string) when absent. -/
theorem c8_match_result_frame (kbFind : JValue → JValue → List KBMatch) (fmt : ℚ → String)
    (items : List PyDict) (bom : List SupplierRow) (wf ts : String) (rs : List PyDict)
    (hok : match_items_with_knowledge_base kbFind fmt items bom wf ts = Except.ok rs) :
    List.Forall₂ (fun r it =>
      (∀ k, k ∉ overridden_match_keys → dictGet r k = dictGet it k) ∧
      dictGet r "qa_material_name" =
        some (dictGetD it "qa_material_name" (dictGetD it "name" (JValue.str "")))) rs items := by
  induction items generalizing rs with
  | nil =>
    unfold match_items_with_knowledge_base at hok
    simp only [List.mapM_nil, pure, Except.pure, Except.ok.injEq] at hok
    subst hok
    exact List.Forall₂.nil
  | cons it its ih =>
    unfold match_items_with_knowledge_base at hok ih
    rw [List.mapM_cons] at hok
    cases hone : match_one_item kbFind fmt bom wf ts it with
    | error e =>
      rw [hone] at hok
      simp [Bind.bind, Except.bind] at hok
    | ok r =>
      rw [hone] at hok
      cases hrest : its.mapM (match_one_item kbFind fmt bom wf ts) with
      | error e =>
        rw [hrest] at hok
        simp [Bind.bind, Except.bind] at hok
      | ok rs2 =>
        rw [hrest] at hok
        simp only [Bind.bind, Except.bind, pure, Except.pure, Except.ok.injEq] at hok
        subst hok
        exact List.Forall₂.cons
          (match_one_item_frame kbFind fmt bom wf ts it r hone) (ih rs2 hrest)

/-- C8 (witness): the frame theorem applied to a concrete one-item run
(no knowledge-store candidates, empty supplier table). -/
theorem c8_match_result_frame_witness :
    List.Forall₂ (fun r it =>
      (∀ k, k ∉ overridden_match_keys → dictGet r k = dictGet it k) ∧
      dictGet r "qa_material_name" =
        some (dictGetD it "qa_material_name" (dictGetD it "name" (JValue.str ""))))
      ((match_items_with_knowledge_base (fun _ _ => []) (fun _ => "")
        [[("name", JValue.str "Widget"), ("confidence_score", JValue.num (mkRat 9 10))]]
        [] "wf" "ts").toOption.getD [])
      [[("name", JValue.str "Widget"), ("confidence_score", JValue.num (mkRat 9 10))]] :=
  c8_match_result_frame (fun _ _ => []) (fun _ => "")
    [[("name", JValue.str "Widget"), ("confidence_score", JValue.num (mkRat 9 10))]]
    [] "wf" "ts"
    ((match_items_with_knowledge_base (fun _ _ => []) (fun _ => "")
      [[("name", JValue.str "Widget"), ("confidence_score", JValue.num (mkRat 9 10))]]
      [] "wf" "ts").toOption.getD []) rfl

/-- C8 (counterexample): an extracted item with `confidence_score` 0.9,
matched with no knowledge-store and no supplier candidates, comes back
with `confidence_score` 0.0 — the original field value is NOT carried
through unchanged: the matcher overwrites it with the selected match
score. -/
theorem c8_confidence_overwritten :
    dictGet [("name", JValue.str "Widget"), ("confidence_score", JValue.num (mkRat 9 10))]
      "confidence_score" = some (JValue.num (mkRat 9 10)) ∧
    ((match_items_with_knowledge_base (fun _ _ => []) (fun _ => "")
        [[("name", JValue.str "Widget"), ("confidence_score", JValue.num (mkRat 9 10))]]
        [] "wf" "ts").toOption.getD []).map (fun r => dictGet r "confidence_score")
      = [some (JValue.num (mkRat 0 1))] ∧
    JValue.num (mkRat 0 1) ≠ JValue.num (mkRat 9 10) := by
  refine ⟨rfl, rfl, ?_⟩
  intro h
  injection h with hq
  exact absurd hq (by decide)

/-- C4 (witness): the amended bound instantiated on a concrete chunk of
a concrete run — the chunk of `"aaa\nbb"` at limit 5 has length 6 and
one newline, within the separator-aware bound. -/
theorem c4_chunk_size_amended_witness :
    "aaa\nbb".toList ∈ split_into_extraction_chunks "aaa\nbb".toList 5 ∧
    ("aaa\nbb".toList.count '\n' = 0 ∨
      "aaa\nbb".toList.length ≤ 5 + "aaa\nbb".toList.count '\n') :=
  ⟨by decide, c4_chunk_size_amended "aaa\nbb".toList 5 "aaa\nbb".toList (by decide)⟩
